import Mathlib

/-!
Verification of the channel/session registry and broadcast engine of a
room-based chat relay (a Node.js/socket.io server).  The definitions below
are a shallow embedding of the JavaScript source:

* `src/server.js` (second, enhanced iteration): validators, user colors,
  bounded message history, join/send/typing/disconnect handlers, deferred
  empty-channel deletion — embedded as `validateUsername`,
  `validateChannelName`, `validateMessage`, `validateEmotes`,
  `addMessageToHistory`, `getMessageHistory`, `getUserColor`, `joinStep`,
  `sendMessageStep`, `typingStep`, `leaveChannel`, `timerFireStep`.
* `src/unnamed/part_000` (base policy iteration): static emote catalog and
  the limit-10 emote validator — embedded as `validateEmotesBase`,
  `sendMessageStepBase`.

JavaScript strings are modelled as `List Char` (one entry per UTF-16 code
unit; all inputs of interest are in the basic plane).  JavaScript `Map`s
are modelled as association lists with insertion-order semantics (`aget`,
`aset`, `adel`).  Dynamically typed handler inputs are modelled by `JSVal`.
-/

namespace Chat

/-- A JavaScript string, one entry per code unit. -/
abbrev Str := List Char

/-- A dynamically typed JavaScript value as received by a socket handler.
Objects are modelled by the two properties the handlers read
(`username`/`messageContent` for a `replyTo` quote); a missing property is
`vundef`. -/
inductive JSVal where
  | vundef
  | vnull
  | vbool (b : Bool)
  | vnum (n : Int)
  | vstr (s : Str)
  | vobj (username messageContent : JSVal)
deriving DecidableEq

/-- JavaScript truthiness of a value (`NaN` is not representable in this
model; integer `0` is falsy like JS `0`). -/
def jsTruthy : JSVal → Bool
  | .vundef => false
  | .vnull => false
  | .vbool b => b
  | .vnum n => n != 0
  | .vstr s => !s.isEmpty
  | .vobj _ _ => true

/-- Whether `typeof v === 'boolean'`. -/
def jsIsBool : JSVal → Bool
  | .vbool _ => true
  | _ => false

/-- Characters removed by JavaScript `String.prototype.trim` (ASCII
whitespace plus the common Unicode space code points). -/
def isJsWs (c : Char) : Bool :=
  [' ', '\t', '\n', '\r', '\u000B', '\u000C', '\u00A0', '\u1680',
   '\u2000', '\u2001', '\u2002', '\u2003', '\u2004', '\u2005', '\u2006',
   '\u2007', '\u2008', '\u2009', '\u200A', '\u2028', '\u2029', '\u202F',
   '\u205F', '\u3000', '\uFEFF'].contains c

/-- JavaScript `s.trim()`: drop leading and trailing whitespace. -/
def jsTrim (s : Str) : Str :=
  ((s.dropWhile isJsWs).reverse.dropWhile isJsWs).reverse

/-- ASCII case mapping used by `toLowerCase` on the inputs of interest
(non-ASCII characters are left unchanged). -/
def jsToLowerChar (c : Char) : Char :=
  if 'A' ≤ c ∧ c ≤ 'Z' then Char.ofNat (c.toNat + 32) else c

/-- ASCII case mapping used by `toUpperCase` on the inputs of interest. -/
def jsToUpperChar (c : Char) : Char :=
  if 'a' ≤ c ∧ c ≤ 'z' then Char.ofNat (c.toNat - 32) else c

/-- JavaScript `s.toLowerCase()` for the ASCII range. -/
def jsLower (s : Str) : Str := s.map jsToLowerChar

/-- Scanning loop of `countOcc`: on a match, resume after the matched
text; otherwise advance one character.  The fuel argument only bounds the
recursion (each step consumes at least one character, so `s.length` fuel
is always enough). -/
def countOccGo (pat : Str) : Nat → Str → Nat
  | 0, _ => 0
  | _, [] => 0
  | fuel + 1, c :: rest =>
    if pat.isPrefixOf (c :: rest) then 1 + countOccGo pat fuel (rest.drop (pat.length - 1))
    else countOccGo pat fuel rest

/-- Count of non-overlapping occurrences of `pat` in `s`, scanning left to
right — the number of matches of a global regex whose pattern is the
literal string `pat` (as in `message.match(new RegExp(..., 'g'))`). -/
def countOcc (pat s : Str) : Nat := countOccGo pat s.length s

/-- JavaScript `s.includes(pat)`: substring containment. -/
def containsSub (pat : Str) : Str → Bool
  | [] => pat.isEmpty
  | c :: rest => pat.isPrefixOf (c :: rest) || containsSub pat rest

theorem dropWhile_length_le {α : Type} (p : α → Bool) :
    ∀ l : List α, (l.dropWhile p).length ≤ l.length := by
  intro l
  induction l with
  | nil => simp [List.dropWhile]
  | cons c rest ih =>
    by_cases h : p c = true
    · simp only [List.dropWhile, h, List.length_cons]; omega
    · simp [List.dropWhile, h]

/-- Splitting loop of `splitWs`; as in `countOccGo`, the fuel argument
only bounds the recursion and `s.length` fuel is always enough. -/
def splitWsGo : Nat → Str → List Str
  | 0, _ => [[]]
  | _, [] => [[]]
  | fuel + 1, c :: rest =>
    if isJsWs c then [] :: splitWsGo fuel (rest.dropWhile isJsWs)
    else
      match splitWsGo fuel rest with
      | w :: ws => (c :: w) :: ws
      | [] => [[c]]

/-- JavaScript `s.split(/\s+/)`: split on runs of whitespace; a leading or
trailing separator contributes an empty chunk, as in JS. -/
def splitWs (s : Str) : List Str := splitWsGo s.length s

/-- Lookup in a JavaScript `Map` modelled as an association list
(`map.get(k)`). -/
def aget {K V : Type} [DecidableEq K] : List (K × V) → K → Option V
  | [], _ => none
  | e :: rest, k => if e.1 = k then some e.2 else aget rest k

/-- `map.set(k, v)`: replace the value of an existing key in place
(preserving insertion order) or append a new entry. -/
def aset {K V : Type} [DecidableEq K] : List (K × V) → K → V → List (K × V)
  | [], k, v => [(k, v)]
  | e :: rest, k, v => if e.1 = k then (k, v) :: rest else e :: aset rest k v

/-- `map.delete(k)`: remove the entry with key `k` (keys are unique in all
maps built by the server, so removing every match is the same operation). -/
def adel {K V : Type} [DecidableEq K] : List (K × V) → K → List (K × V)
  | [], _ => []
  | e :: rest, k => if e.1 = k then adel rest k else e :: adel rest k

/-- Wrap to a signed 32-bit integer, as JavaScript bitwise operators do. -/
def toInt32 (n : Int) : Int := (n + 2 ^ 31) % 2 ^ 32 - 2 ^ 31

/-- JavaScript `hash << 5`: both the operand and the result are converted
to signed 32-bit integers. -/
def jsShl5 (h : Int) : Int := toInt32 (toInt32 h * 32)

/-- User color classes (`userColors` in `server.js`). -/
def userColors : List Str :=
  ["user-red", "user-orange", "user-yellow", "user-green",
   "user-blue", "user-purple", "user-pink", "user-cyan",
   "user-lime", "user-indigo", "user-teal", "user-amber"].map String.toList

/-- Accumulated hash of `getUserColor`:
`hash = username.charCodeAt(i) + ((hash << 5) - hash)` over the string. -/
def getUserColorHash (username : Str) : Int :=
  username.foldl (fun hash c => (c.toNat : Int) + (jsShl5 hash - hash)) 0

/-- `getUserColor(username)`: deterministic color class from the name
(`userColors[Math.abs(hash) % userColors.length]`).  The fallback value of
`getD` is never reached since the index is below the list length. -/
def getUserColor (username : Str) : Str :=
  userColors.getD ((getUserColorHash username).natAbs % userColors.length) []

/-- Static denylist of `validateMessage` (`profanityWords`). -/
def profanityWords : List Str := ["spam", "scam"].map String.toList

/-- `validateMessage(message)` from `server.js`/`part_000`: requires a
truthy string, trims, rejects empty or over-500-char bodies, rejects a
case-insensitive denylist substring hit, and returns the trimmed body. -/
def validateMessage (v : JSVal) : Option Str :=
  match v with
  | .vstr s =>
    if s = [] then none
    else
      let trimmed := jsTrim s
      if trimmed.length = 0 ∨ trimmed.length > 500 then none
      else
        let lowerMessage := jsLower trimmed
        if profanityWords.any (fun w => containsSub w lowerMessage) then none
        else some trimmed
  | _ => none

/-- `validateUsername(username)` from `server.js`/`part_000`: requires a
truthy string, trims, rejects a trimmed length outside [2,20], then strips
`<` and `>` from the trimmed name (without re-checking the length). -/
def validateUsername (v : JSVal) : Option Str :=
  match v with
  | .vstr s =>
    if s = [] then none
    else
      let trimmed := jsTrim s
      if trimmed.length < 2 ∨ trimmed.length > 20 then none
      else some (trimmed.filter (fun c => ¬(c = '<' ∨ c = '>')))
  | _ => none

/-- A character allowed in a channel name: `[a-zA-Z0-9_-]`. -/
def isChannelChar (c : Char) : Bool :=
  ('a' ≤ c ∧ c ≤ 'z') ∨ ('A' ≤ c ∧ c ≤ 'Z') ∨ ('0' ≤ c ∧ c ≤ '9') ∨ c = '_' ∨ c = '-'

/-- `validateChannelName(channel)` from `server.js`/`part_000`: requires a
truthy string, trims, rejects an empty trimmed name, then strips every
character outside `[a-zA-Z0-9_-]` and lowercases the result.  Note that the
result may be the empty string (the stripped result is not re-checked);
the join handler's own truthiness test rejects that case. -/
def validateChannelName (v : JSVal) : Option Str :=
  match v with
  | .vstr s =>
    if s = [] then none
    else
      let trimmed := jsTrim s
      if trimmed.length = 0 then none
      else some (jsLower (trimmed.filter isChannelChar))
  | _ => none

/-- Whether an `Option Str` result of a validator is falsy in JS
(`null` or the empty string), as tested by `if (!validUsername)` and
`if (!validChannel)` in the join handler. -/
def strFalsy : Option Str → Bool
  | none => true
  | some s => s.isEmpty

/-- A character matched by `/^[a-zA-Z0-9_]+$/` in the FFZ heuristic. -/
def isWordChar (c : Char) : Bool :=
  ('a' ≤ c ∧ c ≤ 'z') ∨ ('A' ≤ c ∧ c ≤ 'Z') ∨ ('0' ≤ c ∧ c ≤ '9') ∨ c = '_'

/-- The heuristic filter of `validateEmotes` in `server.js`: a word of
length 3–25 made of `[a-zA-Z0-9_]` whose first character is unchanged by
`toUpperCase`, or which contains `pepe` or `monka`. -/
def isPotentialFFZEmote (w : Str) : Bool :=
  decide (3 ≤ w.length) && decide (w.length ≤ 25) && w.all isWordChar &&
    (match w with
     | [] => false
     | c :: _ => decide (c = jsToUpperChar c) ||
         containsSub "pepe".toList w || containsSub "monka".toList w)

/-- Total count of `:name:` occurrences in `message` over a catalog of
emote names (the per-name `message.match(regex)` loop). -/
def emoteRefCount (catalog : List Str) (message : Str) : Nat :=
  catalog.foldl (fun acc name => acc + countOcc (':' :: (name ++ [':'])) message) 0

/-- `validateEmotes(message)` from `server.js` (enhanced iteration): counts
`:name:` references over the dynamically fetched custom-emote catalog,
adds the count of heuristically detected bare FFZ emote words, and accepts
when the total is at most 15. -/
def validateEmotes (catalog : List Str) (message : Str) : Bool :=
  let emoteCount := emoteRefCount catalog message
  let words := splitWs message
  let total := emoteCount + (words.filter isPotentialFFZEmote).length
  total ≤ 15

/-- Static emote catalog of `part_000`: the keys of `customEmotes`
followed by the keys of `gifEmotes` (object spread order). -/
def baseEmoteNames : List Str :=
  ["Kappa", "PogChamp", "KEKW", "LUL", "MonkaS", "EZ",
   "PepeParty", "CatJAM", "EzDance", "PartyParrot"].map String.toList

/-- Total `:name:` count of `validateEmotes` in `part_000` over the static
catalog. -/
def emoteRefCountBase (message : Str) : Nat := emoteRefCount baseEmoteNames message

/-- `validateEmotes(message)` from `part_000` (base policy): accepts when
the explicit `:name:` reference count is at most 10 — no heuristic on bare
capitalized words. -/
def validateEmotesBase (message : Str) : Bool := emoteRefCountBase message ≤ 10

/-- The validated `replyTo` snapshot attached to a message: quoted
username, quoted content truncated to 100 characters, and the color
recomputed from the quoted username. -/
structure ReplyData where
  username : Str
  messageContent : Str
  color : Str
deriving DecidableEq

/-- A message stored in history and broadcast as `new-message`.  The id
``${Date.now()}-${socket.id}`` is modelled as the pair of the creation
time and the connection id; timestamps are modelled as the clock value. -/
structure MessageData where
  id : Nat × Nat
  username : Str
  message : Str
  timestamp : Nat
  channel : Str
  color : Str
  replyTo : Option ReplyData
deriving DecidableEq

/-- Per-member data stored in a channel's `users` map. -/
structure UserData where
  username : Str
  color : Str
  joinedAt : Nat
deriving DecidableEq

/-- Per-connection session stored in the top-level `users` map. -/
structure SessionData where
  username : Str
  channel : Str
  color : Str
deriving DecidableEq

/-- Per-name typing entry stored in a channel's `typingUsers` map. -/
structure TypingData where
  timestamp : Nat
  color : Str
deriving DecidableEq

/-- A channel entry: members keyed by connection id, typing entries keyed
by display name, and the creation time. -/
structure ChannelData where
  users : List (Nat × UserData)
  typingUsers : List (Str × TypingData)
  createdAt : Nat
deriving DecidableEq

/-- The whole in-memory state of the server: the `channels`, `users` and
`messageHistory` maps, plus the set of scheduled empty-channel deletion
timers (channel name and fire time), which models the `setTimeout`
registrations made by `leaveChannel`. -/
structure ServerState where
  channels : List (Str × ChannelData)
  users : List (Nat × SessionData)
  messageHistory : List (Str × List MessageData)
  pending : List (Str × Nat)
deriving DecidableEq

/-- The state at process start: all maps empty. -/
def initialState : ServerState := ⟨[], [], [], []⟩

/-- A fresh channel entry as created by the join handler. -/
def freshChannel (now : Nat) : ChannelData := ⟨[], [], now⟩

/-- `MAX_MESSAGE_HISTORY`. -/
def MAX_MESSAGE_HISTORY : Nat := 100

/-- `addMessageToHistory(channelName, messageData)`: append and keep only
the last `MAX_MESSAGE_HISTORY` entries (the `splice` drops the oldest). -/
def addMessageToHistory (mh : List (Str × List MessageData)) (channelName : Str)
    (messageData : MessageData) : List (Str × List MessageData) :=
  let history := (aget mh channelName).getD []
  let h1 := history ++ [messageData]
  let h2 := if h1.length > MAX_MESSAGE_HISTORY then h1.drop (h1.length - MAX_MESSAGE_HISTORY) else h1
  aset mh channelName h2

/-- `getMessageHistory(channelName, limit = 50)`: the last `limit` stored
messages (`history.slice(-limit)`). -/
def getMessageHistory (mh : List (Str × List MessageData)) (channelName : Str)
    (limit : Nat) : List MessageData :=
  let history := (aget mh channelName).getD []
  history.drop (history.length - limit)

/-- An outbound socket event, with the payload fields the handlers emit. -/
inductive OutEvent where
  | errorEv (message : Str)
  | joinedChannel (username channel color : Str)
  | messageHistory (messages : List MessageData)
  | channelInfo (channel : Str) (userCount : Nat) (users : List (Str × Str))
  | userJoined (username : Str) (userCount : Nat) (color : Str)
  | userLeft (username : Str) (userCount : Nat) (color : Str)
  | userTyping (typingUsers : List (Str × Str))
  | newMessage (messageData : MessageData)
deriving DecidableEq

/-- A dispatch of an outbound event: `socket.emit` (unicast to one
connection), `io.to(channel).emit` (to every member of the room), or
`socket.to(channel).emit` (to every member except the sender). -/
inductive OutAction where
  | uni (sid : Nat) (ev : OutEvent)
  | bAll (channel : Str) (ev : OutEvent)
  | bExcept (channel : Str) (sid : Nat) (ev : OutEvent)
deriving DecidableEq

/-- Error message strings emitted by the handlers. -/
def errInvalidUsername : Str := "Invalid username. Must be 2-20 characters.".toList

def errInvalidChannel : Str := "Invalid channel name.".toList

def errNameTaken : Str := "Username already taken in this channel.".toList

def errInvalidMessage : Str := "Invalid message or user not in channel.".toList

def errTooManyEmotes : Str := "Too many emotes in message. Limit: 15 per message.".toList

def errTooManyEmotesBase : Str := "Too many emotes in message. Limit: 10 per message.".toList

/-- The `typingData` object broadcast in `user-typing` events: each typing
name mapped to its color. -/
def typingSnapshot (tu : List (Str × TypingData)) : List (Str × Str) :=
  tu.map (fun e => (e.1, e.2.color))

/-- The membership list broadcast in `channel-info` events. -/
def channelUserList (users : List (Nat × UserData)) : List (Str × Str) :=
  users.map (fun e => (e.2.username, e.2.color))

/-- `leaveChannel(socket, channelName)` from `server.js` (enhanced
iteration): remove the member, its typing entry and its session; if
members remain, broadcast `user-left`, the refreshed typing snapshot and
refreshed `channel-info`; otherwise schedule deletion of the (still
present) empty channel 60000 ms later. -/
def leaveChannel (st : ServerState) (sid : Nat) (channelName : Str) (now : Nat) :
    ServerState × List OutAction :=
  match aget st.users sid, aget st.channels channelName with
  | some user, some channelData =>
    let cd1 : ChannelData :=
      { channelData with
        users := adel channelData.users sid,
        typingUsers := adel channelData.typingUsers user.username }
    let st1 : ServerState :=
      { st with channels := aset st.channels channelName cd1, users := adel st.users sid }
    if cd1.users.length > 0 then
      (st1, [.bAll channelName (.userLeft user.username cd1.users.length user.color),
             .bAll channelName (.userTyping (typingSnapshot cd1.typingUsers)),
             .bAll channelName (.channelInfo channelName cd1.users.length
               (channelUserList cd1.users))])
    else
      ({ st1 with pending := st1.pending ++ [(channelName, now + 60000)] }, [])
  | _, _ => (st, [])

/-- The tail of the join handler after both validations passed and the
case-insensitive name collision check found no existing member: insert the
member and the session, send at most the last 50 history messages to the
joiner only (and only when the history is non-empty), then emit
`joined-channel`, a room-wide `channel-info` and a `user-joined` to the
others. -/
def joinInsert (st2 : ServerState) (sid : Nat) (validUsername validChannel : Str)
    (cd : ChannelData) (now : Nat) (evs1 : List OutAction) :
    ServerState × List OutAction :=
  let userColor := getUserColor validUsername
  let userData : UserData := ⟨validUsername, userColor, now⟩
  let cd1 : ChannelData := { cd with users := aset cd.users sid userData }
  let st3 : ServerState :=
    { st2 with
      channels := aset st2.channels validChannel cd1,
      users := aset st2.users sid ⟨validUsername, validChannel, userColor⟩ }
  let history := getMessageHistory st3.messageHistory validChannel 50
  let histEvs : List OutAction :=
    if history.length > 0 then [.uni sid (.messageHistory history)] else []
  (st3, evs1 ++ histEvs ++
    [.uni sid (.joinedChannel validUsername validChannel userColor),
     .bAll validChannel (.channelInfo validChannel cd1.users.length (channelUserList cd1.users)),
     .bExcept validChannel sid (.userJoined validUsername cd1.users.length userColor)])

/-- The join handler after any previous channel has been left (`st1` is
the state after the implicit leave, `evs1` its emissions): create the
target channel if absent, reject with the `NameTaken` error if the display
name collides case-insensitively with an existing member, otherwise
insert. -/
def joinAfterLeave (st1 : ServerState) (sid : Nat) (validUsername validChannel : Str)
    (now : Nat) (evs1 : List OutAction) : ServerState × List OutAction :=
  let channels1 :=
    if (aget st1.channels validChannel).isSome then st1.channels
    else aset st1.channels validChannel (freshChannel now)
  let st2 : ServerState := { st1 with channels := channels1 }
  let cd := (aget channels1 validChannel).getD (freshChannel now)
  match cd.users.find? (fun e => jsLower e.2.username == jsLower validUsername) with
  | some _ => (st2, evs1 ++ [.uni sid (.errorEv errNameTaken)])
  | none => joinInsert st2 sid validUsername validChannel cd now evs1

/-- The join handler after both validators returned truthy names: leave
any previous channel, then proceed as `joinAfterLeave`. -/
def joinValidated (st : ServerState) (sid : Nat) (validUsername validChannel : Str)
    (now : Nat) : ServerState × List OutAction :=
  let prev :=
    match aget st.users sid with
    | some prevUser => leaveChannel st sid prevUser.channel now
    | none => (st, ([] : List OutAction))
  joinAfterLeave prev.1 sid validUsername validChannel now prev.2

/-- The `join-channel` handler of `server.js` (enhanced iteration):
validate username and channel name (unicast an error and stop on a falsy
result), then proceed as `joinValidated`. -/
def joinStep (st : ServerState) (sid : Nat) (username channel : JSVal) (now : Nat) :
    ServerState × List OutAction :=
  let validUsername := validateUsername username
  let validChannel := validateChannelName channel
  if strFalsy validUsername then (st, [.uni sid (.errorEv errInvalidUsername)])
  else if strFalsy validChannel then (st, [.uni sid (.errorEv errInvalidChannel)])
  else joinValidated st sid (validUsername.getD []) (validChannel.getD []) now

/-- The `replyTo` validation block of the send-message handler: only a
truthy object is considered; its `username` and `messageContent` must both
validate to truthy values; the quoted content is truncated to 100
characters and the color recomputed from the quoted username.  Any failure
leaves the reply as `null` without affecting the message itself. -/
def mkReplyTo (replyTo : JSVal) : Option ReplyData :=
  match replyTo with
  | .vobj u m =>
    match validateUsername u, validateMessage m with
    | some replyUsername, some replyMessage =>
      if replyUsername = [] then none
      else some ⟨replyUsername, replyMessage.take 100, getUserColor replyUsername⟩
    | _, _ => none
  | _ => none

/-- The `messageData` object literal built by the send-message handlers:
id from creation time and connection id, the session's name, channel and
color, the validated body and the validated reply. -/
def mkMessageData (user : SessionData) (sid now : Nat) (validMessage : Str)
    (validReplyTo : Option ReplyData) : MessageData :=
  ⟨(now, sid), user.username, validMessage, now, user.channel, user.color, validReplyTo⟩

/-- The `send-message` handler of `server.js` (enhanced iteration):
requires a session and a valid body, rejects when `validateEmotes` fails
(limit 15), validates the optional reply, appends to history and sends one
inclusive room-wide `new-message` broadcast. -/
def sendMessageStep (catalog : List Str) (st : ServerState) (sid : Nat)
    (message replyTo : JSVal) (now : Nat) : ServerState × List OutAction :=
  match aget st.users sid, validateMessage message with
  | some user, some validMessage =>
    if ¬validateEmotes catalog validMessage then
      (st, [.uni sid (.errorEv errTooManyEmotes)])
    else
      let messageData := mkMessageData user sid now validMessage (mkReplyTo replyTo)
      ({ st with messageHistory := addMessageToHistory st.messageHistory user.channel messageData },
       [.bAll user.channel (.newMessage messageData)])
  | _, _ => (st, [.uni sid (.errorEv errInvalidMessage)])

/-- The `send-message` handler of `part_000` (base policy): identical
shape, but emote validation is the explicit `:name:` count over the static
catalog with ceiling 10. -/
def sendMessageStepBase (st : ServerState) (sid : Nat)
    (message replyTo : JSVal) (now : Nat) : ServerState × List OutAction :=
  match aget st.users sid, validateMessage message with
  | some user, some validMessage =>
    if ¬validateEmotesBase validMessage then
      (st, [.uni sid (.errorEv errTooManyEmotesBase)])
    else
      let messageData := mkMessageData user sid now validMessage (mkReplyTo replyTo)
      ({ st with messageHistory := addMessageToHistory st.messageHistory user.channel messageData },
       [.bAll user.channel (.newMessage messageData)])
  | _, _ => (st, [.uni sid (.errorEv errInvalidMessage)])

/-- The `typing` handler of `server.js` (enhanced iteration).  The guard
`if (isTyping && typeof isTyping === 'boolean')` only admits the value
`true`: the `else` branch that would clear the entry is unreachable, and a
`{ isTyping: false }` event from a session does nothing at all. -/
def typingStep (st : ServerState) (sid : Nat) (isTyping : JSVal) (now : Nat) :
    ServerState × List OutAction :=
  match aget st.users sid with
  | none => (st, [])
  | some user =>
    match aget st.channels user.channel with
    | none => (st, [])
    | some channelData =>
      if jsTruthy isTyping && jsIsBool isTyping then
        let tu1 :=
          if jsTruthy isTyping then
            aset channelData.typingUsers user.username ⟨now, user.color⟩
          else adel channelData.typingUsers user.username
        let tu2 := tu1.filter (fun e => ¬(now - e.2.timestamp > 5000))
        let cd1 : ChannelData := { channelData with typingUsers := tu2 }
        ({ st with channels := aset st.channels user.channel cd1 },
         [.bAll user.channel (.userTyping (typingSnapshot tu2))])
      else (st, [])

/-- The `disconnect` handler: leave the current channel if a session
exists. -/
def disconnectStep (st : ServerState) (sid : Nat) (now : Nat) :
    ServerState × List OutAction :=
  match aget st.users sid with
  | some user => leaveChannel st sid user.channel now
  | none => (st, [])

/-- The deferred-deletion timer callback scheduled by `leaveChannel`:
at fire time, delete the channel and its history only if the channel still
exists and is still empty.  The fired timer is removed from the scheduled
set. -/
def timerFireStep (st : ServerState) (channelName : Str) (now : Nat) : ServerState :=
  let st0 : ServerState := { st with pending := st.pending.erase (channelName, now) }
  match aget st0.channels channelName with
  | some cd =>
    if cd.users.length = 0 then
      { st0 with
        channels := adel st0.channels channelName,
        messageHistory := adel st0.messageHistory channelName }
    else st0
  | none => st0

/-- An inbound event consumed by the server core; each carries the clock
value (`Date.now()`) at which it is processed. -/
inductive InEvent where
  | join (sid : Nat) (username channel : JSVal) (now : Nat)
  | sendMessage (sid : Nat) (message replyTo : JSVal) (now : Nat)
  | typing (sid : Nat) (isTyping : JSVal) (now : Nat)
  | disconnect (sid : Nat) (now : Nat)
  | timerFire (channelName : Str) (now : Nat)
deriving DecidableEq

/-- One serialized step of the event loop. -/
def step (catalog : List Str) (st : ServerState) : InEvent → ServerState × List OutAction
  | .join sid u c now => joinStep st sid u c now
  | .sendMessage sid m r now => sendMessageStep catalog st sid m r now
  | .typing sid t now => typingStep st sid t now
  | .disconnect sid now => disconnectStep st sid now
  | .timerFire chan now => (timerFireStep st chan now, [])

/-- The state reached after a sequence of events from process start. -/
def runEvents (catalog : List Str) (evs : List InEvent) : ServerState :=
  evs.foldl (fun st ev => (step catalog st ev).1) initialState

/-- Whether connection `rid` is in the socket.io room of `chan`: join and
leave keep room membership in lockstep with the channel's `users` map. -/
def memberOf (st : ServerState) (chan : Str) (rid : Nat) : Bool :=
  match aget st.channels chan with
  | some cd => (aget cd.users rid).isSome
  | none => false

/-- The events a given connection receives from a list of dispatches,
resolving room broadcasts against the channel membership of `st`. -/
def deliveredEvents (st : ServerState) (rid : Nat) (outs : List OutAction) : List OutEvent :=
  outs.filterMap fun a =>
    match a with
    | .uni r ev => if r = rid then some ev else none
    | .bAll chan ev => if memberOf st chan rid then some ev else none
    | .bExcept chan s ev => if memberOf st chan rid ∧ rid ≠ s then some ev else none

/-- The `new-message` payloads a connection receives from a list of
dispatches. -/
def newMessagesTo (st : ServerState) (rid : Nat) (outs : List OutAction) : List MessageData :=
  (deliveredEvents st rid outs).filterMap fun ev =>
    match ev with
    | .newMessage md => some md
    | _ => none

/-- The members of a channel (empty if the channel does not exist). -/
def channelMembers (st : ServerState) (chan : Str) : List (Nat × UserData) :=
  match aget st.channels chan with
  | some cd => cd.users
  | none => []

/-- The channel names reported by the `/api/channels` statistics surface. -/
def channelListing (st : ServerState) : List Str := st.channels.map Prod.fst

/-- Concrete display name used by witness scenarios. -/
def annStr : Str := "Ann".toList

/-- Concrete second display name used by witness scenarios. -/
def bobStr : Str := "Bob".toList

/-- Concrete channel name used by witness scenarios. -/
def generalStr : Str := "general".toList

/-- Ann's color tag. -/
def annColor : Str := getUserColor annStr

/-- A server state in which connection 1 is "Ann", the sole member of
channel "general", currently marked as typing. -/
def stAnn : ServerState :=
  { channels := [(generalStr,
      { users := [(1, ⟨annStr, annColor, 0⟩)],
        typingUsers := [(annStr, ⟨1000, annColor⟩)],
        createdAt := 0 })],
    users := [(1, ⟨annStr, generalStr, annColor⟩)],
    messageHistory := [],
    pending := [] }

/-- A concrete stored message, indexed by its arrival number. -/
def mdW (i : Nat) : MessageData :=
  ⟨(i, 1), annStr, "hello".toList, i, generalStr, annColor, none⟩

/-- A run of 150 concrete messages. -/
def msgs150 : List MessageData := (List.range 150).map mdW

theorem aget_aset_self {K V : Type} [DecidableEq K] (l : List (K × V)) (k : K) (v : V) :
    aget (aset l k v) k = some v := by
  induction l with
  | nil => simp [aset, aget]
  | cons e rest ih =>
    by_cases h : e.1 = k
    · simp [aset, aget, h]
    · simp [aset, aget, h, ih]

theorem aget_mem {K V : Type} [DecidableEq K] {l : List (K × V)} {k : K} {v : V}
    (h : aget l k = some v) : (k, v) ∈ l := by
  induction l with
  | nil => simp [aget] at h
  | cons e rest ih =>
    obtain ⟨e1, e2⟩ := e
    by_cases he : e1 = k
    · subst he
      simp only [aget, if_pos rfl] at h
      injection h with h
      subst h
      exact List.mem_cons_self _ _
    · simp only [aget, he, if_neg, not_false_iff] at h
      exact List.mem_cons_of_mem _ (ih h)

theorem mem_aset {K V : Type} [DecidableEq K] {l : List (K × V)} {k : K} {v : V}
    {e : K × V} (h : e ∈ aset l k v) : e = (k, v) ∨ e ∈ l := by
  induction l with
  | nil => simp [aset] at h; simp [h]
  | cons e' rest ih =>
    by_cases he : e'.1 = k
    · simp only [aset, he, if_pos] at h
      rcases List.mem_cons.mp h with h | h
      · exact Or.inl h
      · exact Or.inr (List.mem_cons_of_mem _ h)
    · simp only [aset, he, if_neg, not_false_iff] at h
      rcases List.mem_cons.mp h with h | h
      · exact Or.inr (h ▸ List.mem_cons_self _ _)
      · rcases ih h with h | h
        · exact Or.inl h
        · exact Or.inr (List.mem_cons_of_mem _ h)

theorem adel_sublist {K V : Type} [DecidableEq K] (l : List (K × V)) (k : K) :
    (adel l k).Sublist l := by
  induction l with
  | nil => simp [adel]
  | cons e rest ih =>
    by_cases he : e.1 = k
    · simp only [adel, he, if_pos]
      exact ih.cons _
    · simp only [adel, he, if_neg, not_false_iff]
      exact ih.cons₂ _

theorem mem_adel {K V : Type} [DecidableEq K] {l : List (K × V)} {k : K} {e : K × V}
    (h : e ∈ adel l k) : e ∈ l :=
  (adel_sublist l k).mem h

theorem adel_key_not_mem {K V : Type} [DecidableEq K] (l : List (K × V)) (k : K) :
    k ∉ (adel l k).map Prod.fst := by
  induction l with
  | nil => simp [adel]
  | cons e rest ih =>
    by_cases he : e.1 = k
    · simpa [adel, he] using ih
    · simp only [adel, he, if_neg, not_false_iff, List.map_cons, List.mem_cons]
      rintro (h | h)
      · exact he h.symm
      · exact ih h

theorem history_append_trunc (h : List MessageData) (md : MessageData)
    (_hle : h.length ≤ MAX_MESSAGE_HISTORY) :
    (if (h ++ [md]).length > MAX_MESSAGE_HISTORY
       then (h ++ [md]).drop ((h ++ [md]).length - MAX_MESSAGE_HISTORY)
       else (h ++ [md]))
    = (h ++ [md]).drop ((h ++ [md]).length - MAX_MESSAGE_HISTORY) := by
  by_cases hgt : (h ++ [md]).length > MAX_MESSAGE_HISTORY
  · rw [if_pos hgt]
  · rw [if_neg hgt]
    have h0 : (h ++ [md]).length - MAX_MESSAGE_HISTORY = 0 := by omega
    rw [h0, List.drop_zero]

theorem addMessageToHistory_fold (chan : Str) :
    ∀ (msgs : List MessageData) (mh : List (Str × List MessageData)) (h : List MessageData),
      aget mh chan = some h → h.length ≤ MAX_MESSAGE_HISTORY →
      aget (msgs.foldl (fun mh md => addMessageToHistory mh chan md) mh) chan
        = some ((h ++ msgs).drop ((h ++ msgs).length - MAX_MESSAGE_HISTORY)) := by
  intro msgs
  induction msgs with
  | nil =>
    intro mh h hget _hle
    simp only [List.foldl_nil, List.append_nil]
    have h0 : h.length - MAX_MESSAGE_HISTORY = 0 := by omega
    rw [h0, List.drop_zero]
    exact hget
  | cons md rest ih =>
    intro mh h hget hle
    have hstep : addMessageToHistory mh chan md
        = aset mh chan ((h ++ [md]).drop ((h ++ [md]).length - MAX_MESSAGE_HISTORY)) := by
      unfold addMessageToHistory
      rw [hget]
      simp only [Option.getD_some]
      rw [history_append_trunc h md hle]
    have hlen2 : ((h ++ [md]).drop ((h ++ [md]).length - MAX_MESSAGE_HISTORY)).length
        ≤ MAX_MESSAGE_HISTORY := by
      simp only [List.length_drop, List.length_append, List.length_cons, List.length_nil]
      omega
    have := ih (aset mh chan ((h ++ [md]).drop ((h ++ [md]).length - MAX_MESSAGE_HISTORY)))
      ((h ++ [md]).drop ((h ++ [md]).length - MAX_MESSAGE_HISTORY))
      (aget_aset_self _ _ _) hlen2
    simp only [List.foldl_cons, hstep]
    rw [this]
    simp only [Option.some.injEq]
    have hd : (h ++ [md]).length - MAX_MESSAGE_HISTORY ≤ (h ++ [md]).length := by omega
    rw [← List.drop_append_of_le_length hd, List.drop_drop, List.append_assoc,
      List.singleton_append]
    have harith : (h ++ [md]).length - MAX_MESSAGE_HISTORY +
        (((h ++ md :: rest).drop ((h ++ [md]).length - MAX_MESSAGE_HISTORY)).length
          - MAX_MESSAGE_HISTORY)
        = (h ++ md :: rest).length - MAX_MESSAGE_HISTORY := by
      simp only [List.length_drop, List.length_append, List.length_cons, List.length_nil]
      omega
    rw [harith]

/-- Claim C3: for every channel, the message history holds at most 100
messages in arrival order, evicting oldest-first when the capacity is
exceeded — after any sequence of `addMessageToHistory` calls the stored
history is exactly the last (at most) 100 appended messages in order; in
particular posting 150 messages leaves exactly the last 100, oldest
first. -/
theorem history_bound (chan : Str) (msgs : List MessageData) :
    (aget (msgs.foldl (fun mh md => addMessageToHistory mh chan md) []) chan).getD []
      = msgs.drop (msgs.length - MAX_MESSAGE_HISTORY) ∧
    ((aget (msgs.foldl (fun mh md => addMessageToHistory mh chan md) []) chan).getD []).length
      ≤ MAX_MESSAGE_HISTORY ∧
    (msgs.length = 150 →
      (aget (msgs.foldl (fun mh md => addMessageToHistory mh chan md) []) chan).getD []
        = msgs.drop 50) := by
  have hmain : (aget (msgs.foldl (fun mh md => addMessageToHistory mh chan md) []) chan).getD []
      = msgs.drop (msgs.length - MAX_MESSAGE_HISTORY) := by
    cases msgs with
    | nil => simp [aget]
    | cons md rest =>
      have hstep : addMessageToHistory [] chan md = aset [] chan [md] := by
        unfold addMessageToHistory
        simp only [aget, Option.getD_none, List.nil_append]
        rw [if_neg (by simp [MAX_MESSAGE_HISTORY])]
      have := addMessageToHistory_fold chan rest (aset ([] : List (Str × List MessageData)) chan [md])
        [md] (aget_aset_self _ _ _) (by simp [MAX_MESSAGE_HISTORY])
      simp only [List.foldl_cons, hstep]
      rw [this]
      simp
  refine ⟨hmain, ?_, ?_⟩
  · rw [hmain]
    simp only [List.length_drop]
    omega
  · intro h150
    rw [hmain, h150]
    norm_num [MAX_MESSAGE_HISTORY]

/-- Witness for C3 at a concrete run of 150 messages through
`addMessageToHistory`. -/
theorem history_bound_witness :
    (msgs150.length = 150) ∧
    (aget (msgs150.foldl (fun mh md => addMessageToHistory mh generalStr md) []) generalStr).getD []
      = msgs150.drop 50 :=
  ⟨by simp [msgs150, generalStr], (history_bound generalStr msgs150).2.2 (by simp [msgs150, generalStr])⟩

/-- Claim C7: display-name normalization trims, rejects exactly when the
trimmed length is outside [2,20], then strips angle brackets from the
trimmed name without re-validating the length — so some accepted results
are shorter than 2 characters. -/
theorem displayName_normalization :
    (∀ s : Str, validateUsername (.vstr s) = none ↔
      ((jsTrim s).length < 2 ∨ (jsTrim s).length > 20)) ∧
    (∀ s r, validateUsername (.vstr s) = some r →
      r = (jsTrim s).filter (fun c => ¬(c = '<' ∨ c = '>'))) ∧
    (∃ s r, validateUsername (.vstr s) = some r ∧ r ≠ [] ∧ r.length < 2) := by
  refine ⟨?_, ?_, ?_⟩
  · intro s
    by_cases hs : s = []
    · subst hs
      simp [validateUsername, jsTrim]
    · simp only [validateUsername, hs, if_neg, not_false_iff]
      by_cases hlen : (jsTrim s).length < 2 ∨ (jsTrim s).length > 20
      · simp [hlen]
      · simp [hlen]
  · intro s r h
    by_cases hs : s = []
    · subst hs; simp [validateUsername] at h
    · simp only [validateUsername, hs, if_neg, not_false_iff] at h
      by_cases hlen : (jsTrim s).length < 2 ∨ (jsTrim s).length > 20
      · simp [hlen] at h
      · simp only [hlen, if_neg, not_false_iff, Option.some.injEq] at h
        exact h.symm
  · exact ⟨"<a".toList, ['a'], by decide, by decide, by decide⟩

/-- Witness for C7 at the concrete raw name `"<a"`: the trimmed length 2
passes validation, and the stripped accepted result `"a"` has length 1. -/
theorem displayName_normalization_witness :
    (validateUsername (.vstr "<a".toList) = none ↔
      ((jsTrim "<a".toList).length < 2 ∨ (jsTrim "<a".toList).length > 20)) ∧
    (['a'] : Str) = (jsTrim "<a".toList).filter (fun c => ¬(c = '<' ∨ c = '>')) :=
  ⟨displayName_normalization.1 "<a".toList,
   displayName_normalization.2.1 "<a".toList ['a'] (by decide)⟩

/-- The channel-name normalization pipeline as the specification words it
(trim, strip everything outside `[A-Za-z0-9_-]`, lowercase), stated
separately for comparison with `validateChannelName` and the join
handler's truthiness guard. -/
def specNormalizeChannelName (s : Str) : Str :=
  jsLower ((jsTrim s).filter isChannelChar)

theorem validateChannelName_spec (s : Str) :
    (strFalsy (validateChannelName (.vstr s)) = true ↔ specNormalizeChannelName s = []) ∧
    (specNormalizeChannelName s ≠ [] →
      validateChannelName (.vstr s) = some (specNormalizeChannelName s)) := by
  by_cases hs : s = []
  · subst hs
    simp [validateChannelName, strFalsy, specNormalizeChannelName, jsTrim, jsLower]
  · by_cases ht : (jsTrim s).length = 0
    · have htr : jsTrim s = [] := List.length_eq_zero.mp ht
      simp [validateChannelName, hs, ht, strFalsy, specNormalizeChannelName, htr, jsLower]
    · simp only [validateChannelName, hs, if_neg, not_false_iff, ht, strFalsy,
        specNormalizeChannelName]
      constructor
      · simp [jsLower]
      · intro _
        trivial

/-- Claim C8: channel-name normalization trims, strips every character
outside `[A-Za-z0-9_-]`, lowercases; a join whose normalized channel name
is empty fails with the invalid-channel error (even when the trimmed input
was non-empty); and two raw inputs with the same normalization are
indistinguishable to the join handler, hence address the same channel
entry. -/
theorem channelName_normalization :
    (∀ (s : Str) (st : ServerState) (sid : Nat) (u : JSVal) (now : Nat),
      strFalsy (validateUsername u) = false → specNormalizeChannelName s = [] →
      joinStep st sid u (.vstr s) now = (st, [.uni sid (.errorEv errInvalidChannel)])) ∧
    (∀ s : Str, specNormalizeChannelName s ≠ [] →
      validateChannelName (.vstr s) = some (specNormalizeChannelName s)) ∧
    (∀ s1 s2 : Str, specNormalizeChannelName s1 = specNormalizeChannelName s2 →
      ∀ (st : ServerState) (sid : Nat) (u : JSVal) (now : Nat),
        joinStep st sid u (.vstr s1) now = joinStep st sid u (.vstr s2) now) := by
  refine ⟨?_, ?_, ?_⟩
  · intro s st sid u now hu hnorm
    have hch : strFalsy (validateChannelName (.vstr s)) = true :=
      (validateChannelName_spec s).1.mpr hnorm
    simp [joinStep, hu, hch]
  · intro s
    exact (validateChannelName_spec s).2
  · intro s1 s2 hnorm st sid u now
    by_cases hu : strFalsy (validateUsername u) = true
    · simp [joinStep, hu]
    · replace hu : strFalsy (validateUsername u) = false := by
        cases h : strFalsy (validateUsername u)
        · rfl
        · exact absurd h hu
      by_cases hempty : specNormalizeChannelName s1 = []
      · have h1 : strFalsy (validateChannelName (.vstr s1)) = true :=
          (validateChannelName_spec s1).1.mpr hempty
        have h2 : strFalsy (validateChannelName (.vstr s2)) = true :=
          (validateChannelName_spec s2).1.mpr (hnorm ▸ hempty)
        simp [joinStep, hu, h1, h2]
      · have h1 := (validateChannelName_spec s1).2 hempty
        have h2 := (validateChannelName_spec s2).2 (fun h => hempty (hnorm.trans h))
        simp only [joinStep, h1, h2, hnorm]

/-- Witness for C8: the raw inputs `"###"` (non-empty but emptied by
stripping) and the pair `"GENERAL"`/`" general "` (equal normalizations)
at a concrete state. -/
theorem channelName_normalization_witness :
    joinStep stAnn 2 (.vstr bobStr) (.vstr "###".toList) 7
      = (stAnn, [.uni 2 (.errorEv errInvalidChannel)]) ∧
    joinStep stAnn 2 (.vstr bobStr) (.vstr "GENERAL".toList) 7
      = joinStep stAnn 2 (.vstr bobStr) (.vstr " general ".toList) 7 :=
  ⟨channelName_normalization.1 "###".toList stAnn 2 (.vstr bobStr) 7 (by decide) (by decide),
   channelName_normalization.2.2 "GENERAL".toList " general ".toList (by decide) stAnn 2
     (.vstr bobStr) 7⟩

/-- The display names currently recorded as typing in a channel. -/
def channelTypingNames (st : ServerState) (chan : Str) : List Str :=
  match aget st.channels chan with
  | some cd => cd.typingUsers.map Prod.fst
  | none => []

/-- Claim C5 (code bug): a `typing` event with `isTyping: false` from a
session whose name is currently in the typing set is ignored entirely by
the enhanced iteration's handler — the guard
`if (isTyping && typeof isTyping === 'boolean')` short-circuits on the
falsy value, so no mutation is applied, no sweep runs, no snapshot is
rebroadcast, and the sender's name stays in the typing set, contradicting
the claimed clear-and-rebroadcast behavior. -/
theorem typing_clear_ignored :
    typingStep stAnn 1 (.vbool false) 2000 = (stAnn, []) ∧
    annStr ∈ channelTypingNames (typingStep stAnn 1 (.vbool false) 2000).1 generalStr := by
  constructor
  · rfl
  · decide

/-- Claim C4: when the last member leaves a channel, the channel entry is
not deleted immediately — it survives the leave with zero members and a
deletion timer is scheduled 60000 ms later; at fire time the timer deletes
only if the channel is still empty, so a channel with members again is
untouched, while a still-empty channel disappears from the `/api/channels`
listing. -/
theorem emptyChannel_grace_period :
    (∀ (st : ServerState) (sid : Nat) (user : SessionData) (cd : ChannelData) (now : Nat),
      aget st.users sid = some user →
      aget st.channels user.channel = some cd →
      (adel cd.users sid).length = 0 →
      aget (leaveChannel st sid user.channel now).1.channels user.channel
        = some { cd with users := adel cd.users sid,
                         typingUsers := adel cd.typingUsers user.username } ∧
      (leaveChannel st sid user.channel now).1.pending
        = st.pending ++ [(user.channel, now + 60000)] ∧
      (leaveChannel st sid user.channel now).2 = []) ∧
    (∀ (st : ServerState) (chan : Str) (now : Nat) (cd : ChannelData),
      aget st.channels chan = some cd → cd.users.length > 0 →
      (timerFireStep st chan now).channels = st.channels) ∧
    (∀ (st : ServerState) (chan : Str) (now : Nat) (cd : ChannelData),
      aget st.channels chan = some cd → cd.users.length = 0 →
      chan ∉ channelListing (timerFireStep st chan now)) := by
  refine ⟨?_, ?_, ?_⟩
  · intro st sid user cd now hu hc hempty
    simp only [leaveChannel, hu, hc]
    rw [if_neg (by omega)]
    refine ⟨?_, rfl, rfl⟩
    exact aget_aset_self _ _ _
  · intro st chan now cd hc hpos
    simp only [timerFireStep]
    have hc0 : aget st.channels chan = some cd := hc
    simp only [hc0]
    rw [if_neg (by omega)]
  · intro st chan now cd hc hzero
    simp only [timerFireStep, channelListing]
    have hc0 : aget st.channels chan = some cd := hc
    simp only [hc0]
    rw [if_pos hzero]
    exact adel_key_not_mem _ _

/-- Witness for C4: Ann (connection 1, sole member of "general") leaves at
time 5; firing the timer on the resulting state at time 60005 removes
"general" from the listing, while firing it on the original (still
populated) state leaves the channels untouched. -/
theorem emptyChannel_grace_period_witness :
    (aget (leaveChannel stAnn 1 generalStr 5).1.channels generalStr
        = some { users := [], typingUsers := [], createdAt := 0 } ∧
      (leaveChannel stAnn 1 generalStr 5).1.pending = [(generalStr, 60005)] ∧
      (leaveChannel stAnn 1 generalStr 5).2 = []) ∧
    (timerFireStep stAnn generalStr 60005).channels = stAnn.channels ∧
    generalStr ∉ channelListing (timerFireStep (leaveChannel stAnn 1 generalStr 5).1
      generalStr 60005) := by
  refine ⟨?_, ?_, ?_⟩
  · have h := emptyChannel_grace_period.1 stAnn 1 ⟨annStr, generalStr, annColor⟩
      { users := [(1, ⟨annStr, annColor, 0⟩)],
        typingUsers := [(annStr, ⟨1000, annColor⟩)], createdAt := 0 }
      5 (by decide) (by decide) (by decide)
    simpa using h
  · exact emptyChannel_grace_period.2.1 stAnn generalStr 60005
      { users := [(1, ⟨annStr, annColor, 0⟩)],
        typingUsers := [(annStr, ⟨1000, annColor⟩)], createdAt := 0 }
      (by decide) (by decide)
  · exact emptyChannel_grace_period.2.2 (leaveChannel stAnn 1 generalStr 5).1 generalStr 60005
      { users := [], typingUsers := [], createdAt := 0 } (by decide) (by decide)

/-- Claim C2: a successful `send-message` produces a single inclusive
room-wide broadcast, the membership maps are untouched, and every member
of the sender's channel — the sender included — receives exactly one
`new-message` event carrying the same message payload. -/
theorem postMessage_self_delivery
    (catalog : List Str) (st : ServerState) (sid : Nat) (user : SessionData)
    (message replyTo : JSVal) (now : Nat) (vm : Str)
    (hu : aget st.users sid = some user)
    (hm : validateMessage message = some vm)
    (he : validateEmotes catalog vm = true) :
    ∃ md : MessageData,
      (sendMessageStep catalog st sid message replyTo now).2
        = [.bAll user.channel (.newMessage md)] ∧
      (sendMessageStep catalog st sid message replyTo now).1.channels = st.channels ∧
      ∀ rid : Nat, memberOf st user.channel rid = true →
        newMessagesTo (sendMessageStep catalog st sid message replyTo now).1 rid
          (sendMessageStep catalog st sid message replyTo now).2 = [md] := by
  refine ⟨mkMessageData user sid now vm (mkReplyTo replyTo), ?_, ?_, ?_⟩
  · simp [sendMessageStep, hu, hm, he]
  · simp [sendMessageStep, hu, hm, he]
  · intro rid hmem
    have hmem' : memberOf (sendMessageStep catalog st sid message replyTo now).1
        user.channel rid = true := by
      simpa [sendMessageStep, hu, hm, he, memberOf] using hmem
    simp [newMessagesTo, deliveredEvents, sendMessageStep, hu, hm, he] at hmem' ⊢
    simp [hmem']

/-- Witness for C2: Ann posts "hello" in "general"; she is a member and
receives exactly the one broadcast copy. -/
theorem postMessage_self_delivery_witness :
    ∃ md : MessageData,
      (sendMessageStep [] stAnn 1 (.vstr "hello".toList) .vundef 5).2
        = [.bAll generalStr (.newMessage md)] ∧
      (sendMessageStep [] stAnn 1 (.vstr "hello".toList) .vundef 5).1.channels
        = stAnn.channels ∧
      ∀ rid : Nat, memberOf stAnn generalStr rid = true →
        newMessagesTo (sendMessageStep [] stAnn 1 (.vstr "hello".toList) .vundef 5).1 rid
          (sendMessageStep [] stAnn 1 (.vstr "hello".toList) .vundef 5).2 = [md] :=
  postMessage_self_delivery [] stAnn 1 ⟨annStr, generalStr, annColor⟩
    (.vstr "hello".toList) .vundef 5 "hello".toList (by decide) (by decide) (by decide)

/-- Claim C6: under the base policy of `part_000`, a send-message from a
session with a valid body is rejected — unicast error, no state change, no
broadcast — exactly when the number of `:name:` references to the static
catalog exceeds 10; otherwise it is stored and broadcast.  The explicit
`:name:` count is the only counting rule in this validator. -/
theorem token_limit_base
    (st : ServerState) (sid : Nat) (user : SessionData)
    (message replyTo : JSVal) (now : Nat) (vm : Str)
    (hu : aget st.users sid = some user)
    (hm : validateMessage message = some vm) :
    (emoteRefCountBase vm > 10 →
      sendMessageStepBase st sid message replyTo now
        = (st, [.uni sid (.errorEv errTooManyEmotesBase)])) ∧
    (emoteRefCountBase vm ≤ 10 →
      sendMessageStepBase st sid message replyTo now
        = ({ st with messageHistory := addMessageToHistory st.messageHistory user.channel (mkMessageData user sid now vm (mkReplyTo replyTo)) },
           [.bAll user.channel (.newMessage
              (mkMessageData user sid now vm (mkReplyTo replyTo)))])) := by
  constructor
  · intro hgt
    have hv : validateEmotesBase vm = false := by
      simp [validateEmotesBase]
      omega
    simp [sendMessageStepBase, hu, hm, hv]
  · intro hle
    have hv : validateEmotesBase vm = true := by
      simp [validateEmotesBase]
      omega
    simp [sendMessageStepBase, hu, hm, hv]

/-- A message containing eleven `:EZ:` references to the static catalog. -/
def spam11 : Str := (String.join (List.replicate 11 ":EZ:")).toList

/-- Witness for C6: eleven `:EZ:` references are rejected with the
limit-10 error and no state change; a plain "hello" is stored and
broadcast. -/
theorem token_limit_base_witness :
    (emoteRefCountBase spam11 > 10 ∧
      sendMessageStepBase stAnn 1 (.vstr spam11) .vundef 5
        = (stAnn, [.uni 1 (.errorEv errTooManyEmotesBase)])) ∧
    (emoteRefCountBase "hello".toList ≤ 10 ∧
      sendMessageStepBase stAnn 1 (.vstr "hello".toList) .vundef 5
        = ({ stAnn with messageHistory := addMessageToHistory stAnn.messageHistory generalStr (mkMessageData ⟨annStr, generalStr, annColor⟩ 1 5 "hello".toList none) },
           [.bAll generalStr (.newMessage
              (mkMessageData ⟨annStr, generalStr, annColor⟩ 1 5 "hello".toList none))])) := by
  constructor
  · exact ⟨by decide,
      (token_limit_base stAnn 1 ⟨annStr, generalStr, annColor⟩ (.vstr spam11) .vundef 5 spam11
        (by decide) (by decide)).1 (by decide)⟩
  · exact ⟨by decide,
      (token_limit_base stAnn 1 ⟨annStr, generalStr, annColor⟩ (.vstr "hello".toList) .vundef 5
        "hello".toList (by decide) (by decide)).2 (by decide)⟩

/-- Claim C10: a valid message whose `replyTo` fails validation (not a
truthy object, or with a username or quoted content that does not
validate to a truthy value) is still stored and broadcast with a `null`
reply, while a valid `replyTo` is attached with its quoted content
truncated to 100 characters and its color recomputed from the quoted
username. -/
theorem replyTo_best_effort
    (catalog : List Str) (st : ServerState) (sid : Nat) (user : SessionData)
    (message replyTo : JSVal) (now : Nat) (vm : Str)
    (hu : aget st.users sid = some user)
    (hm : validateMessage message = some vm)
    (he : validateEmotes catalog vm = true) :
    (sendMessageStep catalog st sid message replyTo now
      = ({ st with messageHistory := addMessageToHistory st.messageHistory user.channel (mkMessageData user sid now vm (mkReplyTo replyTo)) },
         [.bAll user.channel (.newMessage
            (mkMessageData user sid now vm (mkReplyTo replyTo)))])) ∧
    (∀ u m ru rm, replyTo = .vobj u m → validateUsername u = some ru → ru ≠ [] →
      validateMessage m = some rm →
      mkReplyTo replyTo = some ⟨ru, rm.take 100, getUserColor ru⟩) ∧
    (∀ u m, replyTo = .vobj u m →
      (validateUsername u = none ∨ validateUsername u = some [] ∨ validateMessage m = none) →
      mkReplyTo replyTo = none) ∧
    ((∀ u m, replyTo ≠ .vobj u m) → mkReplyTo replyTo = none) := by
  refine ⟨?_, ?_, ?_, ?_⟩
  · simp [sendMessageStep, hu, hm, he]
  · intro u m ru rm hr hru hne hrm
    subst hr
    simp [mkReplyTo, hru, hrm, hne]
  · intro u m hr hbad
    subst hr
    rcases hbad with h | h | h
    · simp [mkReplyTo, h]
    · simp only [mkReplyTo, h]
      cases hvm : validateMessage m with
      | none => rfl
      | some rm => simp
    · simp [mkReplyTo, h]
  · intro hne
    cases replyTo with
    | vobj u m => exact absurd rfl (hne u m)
    | vundef => rfl
    | vnull => rfl
    | vbool b => rfl
    | vnum n => rfl
    | vstr s => rfl

/-- Witness for C10: a reply quoting the one-character name "B" is dropped
(message still broadcast with `replyTo = null`), while a reply quoting
"Bob" is attached truncated and recolored. -/
theorem replyTo_best_effort_witness :
    (sendMessageStep [] stAnn 1 (.vstr "hello".toList)
        (.vobj (.vstr "B".toList) (.vstr "hi".toList)) 5
      = ({ stAnn with messageHistory := addMessageToHistory stAnn.messageHistory generalStr (mkMessageData ⟨annStr, generalStr, annColor⟩ 1 5 "hello".toList none) },
         [.bAll generalStr (.newMessage
            (mkMessageData ⟨annStr, generalStr, annColor⟩ 1 5 "hello".toList none))])) ∧
    mkReplyTo (.vobj (.vstr "Bob".toList) (.vstr "hi".toList))
      = some ⟨bobStr, "hi".toList, getUserColor bobStr⟩ := by
  constructor
  · have h := (replyTo_best_effort [] stAnn 1 ⟨annStr, generalStr, annColor⟩
      (.vstr "hello".toList) (.vobj (.vstr "B".toList) (.vstr "hi".toList)) 5 "hello".toList
      (by decide) (by decide) (by decide)).1
    have hnone : mkReplyTo (.vobj (.vstr "B".toList) (.vstr "hi".toList)) = none :=
      (replyTo_best_effort [] stAnn 1 ⟨annStr, generalStr, annColor⟩
        (.vstr "hello".toList) (.vobj (.vstr "B".toList) (.vstr "hi".toList)) 5 "hello".toList
        (by decide) (by decide) (by decide)).2.2.1 (.vstr "B".toList) (.vstr "hi".toList) rfl
        (Or.inl (by decide))
    rw [hnone] at h
    exact h
  · exact (replyTo_best_effort [] stAnn 1 ⟨annStr, generalStr, annColor⟩
      (.vstr "hello".toList) (.vobj (.vstr "Bob".toList) (.vstr "hi".toList)) 5 "hello".toList
      (by decide) (by decide) (by decide)).2.1 (.vstr "Bob".toList) (.vstr "hi".toList)
      bobStr "hi".toList rfl (by decide) (by decide) (by decide)

theorem strFalsy_some_of_ne {s : Str} (h : s ≠ []) : strFalsy (some s) = false := by
  cases s
  · exact absurd rfl h
  · rfl

theorem getMessageHistory_length_le (mh : List (Str × List MessageData)) (chan : Str)
    (limit : Nat) : (getMessageHistory mh chan limit).length ≤ limit := by
  simp only [getMessageHistory, List.length_drop]
  omega

/-- The `message-history` payloads a connection receives from a list of
dispatches. -/
def historyDeliveredTo (st : ServerState) (rid : Nat) (outs : List OutAction) :
    List (List MessageData) :=
  (deliveredEvents st rid outs).filterMap fun ev =>
    match ev with
    | .messageHistory msgs => some msgs
    | _ => none

theorem historyDeliveredTo_append (st : ServerState) (rid : Nat)
    (a b : List OutAction) :
    historyDeliveredTo st rid (a ++ b)
      = historyDeliveredTo st rid a ++ historyDeliveredTo st rid b := by
  simp [historyDeliveredTo, deliveredEvents, List.filterMap_append]

theorem leave_no_history (st : ServerState) (sid : Nat) (chan : Str) (now : Nat)
    (st' : ServerState) (rid : Nat) :
    historyDeliveredTo st' rid (leaveChannel st sid chan now).2 = [] := by
  unfold leaveChannel
  cases hu : aget st.users sid with
  | none => rfl
  | some user =>
    cases hc : aget st.channels chan with
    | none => rfl
    | some cd =>
      by_cases hlen : (adel cd.users sid).length > 0
      · simp only [hlen, if_pos]
        by_cases hm : memberOf st' chan rid
        · simp [historyDeliveredTo, deliveredEvents, hm]
        · simp [historyDeliveredTo, deliveredEvents, hm]
      · simp only [hlen, if_neg, not_false_iff]
        rfl

theorem joinInsert_no_history (st2 : ServerState) (sid : Nat) (vu vc : Str)
    (cd : ChannelData) (now : Nat) (evs1 : List OutAction) (st' : ServerState)
    (rid : Nat) (hrid : rid ≠ sid)
    (hevs : historyDeliveredTo st' rid evs1 = []) :
    historyDeliveredTo st' rid (joinInsert st2 sid vu vc cd now evs1).2 = [] := by
  unfold joinInsert
  dsimp only
  simp only [historyDeliveredTo_append, hevs, List.nil_append]
  by_cases hlen : (getMessageHistory st2.messageHistory vc 50).length > 0
  · by_cases hm : memberOf st' vc rid
    · simp [hlen, historyDeliveredTo, deliveredEvents, hm, Ne.symm hrid, hrid]
    · simp [hlen, historyDeliveredTo, deliveredEvents, hm, Ne.symm hrid, hrid]
  · by_cases hm : memberOf st' vc rid
    · simp [hlen, historyDeliveredTo, deliveredEvents, hm, Ne.symm hrid, hrid]
    · simp [hlen, historyDeliveredTo, deliveredEvents, hm, Ne.symm hrid, hrid]

theorem joinAfterLeave_no_history (st1 : ServerState) (sid : Nat) (vu vc : Str)
    (now : Nat) (evs1 : List OutAction) (st' : ServerState) (rid : Nat)
    (hrid : rid ≠ sid) (hevs : historyDeliveredTo st' rid evs1 = []) :
    historyDeliveredTo st' rid (joinAfterLeave st1 sid vu vc now evs1).2 = [] := by
  unfold joinAfterLeave
  dsimp only
  cases hfind : ((aget (if (aget st1.channels vc).isSome then st1.channels
      else aset st1.channels vc (freshChannel now)) vc).getD (freshChannel now)).users.find?
        (fun e => jsLower e.2.username == jsLower vu) with
  | some x =>
    simp only [hfind]
    simp only [historyDeliveredTo_append, hevs, List.nil_append]
    simp [historyDeliveredTo, deliveredEvents, Ne.symm hrid]
  | none =>
    simp only [hfind]
    exact joinInsert_no_history _ _ _ _ _ _ _ _ _ hrid hevs

theorem joinStep_no_history (st : ServerState) (sid : Nat) (u c : JSVal) (now : Nat)
    (st' : ServerState) (rid : Nat) (hrid : rid ≠ sid) :
    historyDeliveredTo st' rid (joinStep st sid u c now).2 = [] := by
  unfold joinStep
  dsimp only
  split
  · simp [historyDeliveredTo, deliveredEvents, Ne.symm hrid]
  split
  · simp [historyDeliveredTo, deliveredEvents, Ne.symm hrid]
  unfold joinValidated
  dsimp only
  cases hp : aget st.users sid with
  | none =>
    simp only [hp]
    exact joinAfterLeave_no_history _ _ _ _ _ _ _ _ hrid rfl
  | some prevUser =>
    simp only [hp]
    exact joinAfterLeave_no_history _ _ _ _ _ _ _ _ hrid
      (leave_no_history st sid prevUser.channel now st' rid)

/-- Claim C9: a successful join by a fresh connection delivers to the
joiner exactly one `message-history` event carrying the last at most 50
retained messages when the history is non-empty and no such event when it
is empty; and no join — fresh or re-join, successful or failed — ever
delivers a `message-history` event to any connection other than the
joiner. -/
theorem join_history_replay :
    (∀ (st : ServerState) (sid : Nat) (u c : JSVal) (now : Nat) (vu vc : Str),
      validateUsername u = some vu → vu ≠ [] →
      validateChannelName c = some vc → vc ≠ [] →
      aget st.users sid = none →
      (channelMembers st vc).find? (fun e => jsLower e.2.username == jsLower vu) = none →
      historyDeliveredTo (joinStep st sid u c now).1 sid (joinStep st sid u c now).2
          = (if (getMessageHistory st.messageHistory vc 50).length > 0
              then [getMessageHistory st.messageHistory vc 50] else []) ∧
        (getMessageHistory st.messageHistory vc 50).length ≤ 50) ∧
    (∀ (st : ServerState) (sid : Nat) (u c : JSVal) (now : Nat) (rid : Nat),
      rid ≠ sid →
      historyDeliveredTo (joinStep st sid u c now).1 rid (joinStep st sid u c now).2
        = []) := by
  constructor
  · intro st sid u c now vu vc hu hvu hc hvc hprev hfree
    have houts : ∃ (cnt : Nat) (ul : List (Str × Str)),
        (joinStep st sid u c now).2
          = (if (getMessageHistory st.messageHistory vc 50).length > 0
              then [OutAction.uni sid
                      (.messageHistory (getMessageHistory st.messageHistory vc 50))]
              else [])
            ++ [.uni sid (.joinedChannel vu vc (getUserColor vu)),
                .bAll vc (.channelInfo vc cnt ul),
                .bExcept vc sid (.userJoined vu cnt (getUserColor vu))] := by
      cases hch : aget st.channels vc with
      | some cd =>
        have hfree' : cd.users.find? (fun e => jsLower e.2.username == jsLower vu)
            = none := by
          simpa [channelMembers, hch] using hfree
        refine ⟨(aset cd.users sid ⟨vu, getUserColor vu, now⟩).length,
          channelUserList (aset cd.users sid ⟨vu, getUserColor vu, now⟩), ?_⟩
        simp [joinStep, hu, hc, strFalsy_some_of_ne hvu, strFalsy_some_of_ne hvc,
          joinValidated, joinAfterLeave, hprev, hch, hfree', joinInsert]
      | none =>
        refine ⟨1, [(vu, getUserColor vu)], ?_⟩
        simp [joinStep, hu, hc, strFalsy_some_of_ne hvu, strFalsy_some_of_ne hvc,
          joinValidated, joinAfterLeave, hprev, hch, joinInsert, freshChannel,
          aget_aset_self, aget, aset, channelUserList]
    obtain ⟨cnt, ul, houts⟩ := houts
    refine ⟨?_, getMessageHistory_length_le _ _ _⟩
    rw [houts]
    by_cases hlen : (getMessageHistory st.messageHistory vc 50).length > 0
    · by_cases hm : memberOf (joinStep st sid u c now).1 vc sid
      · simp [hlen, historyDeliveredTo, deliveredEvents, hm]
      · simp [hlen, historyDeliveredTo, deliveredEvents, hm]
    · by_cases hm : memberOf (joinStep st sid u c now).1 vc sid
      · simp [hlen, historyDeliveredTo, deliveredEvents, hm]
      · simp [hlen, historyDeliveredTo, deliveredEvents, hm]
  · intro st sid u c now rid hrid
    exact joinStep_no_history st sid u c now _ rid hrid

/-- Two member entries carry display names that differ case-insensitively
(the comparison the join handler performs with `toLowerCase`). -/
abbrev nameDistinct (a b : Nat × UserData) : Prop :=
  jsLower a.2.username ≠ jsLower b.2.username

/-- Every channel entry of a channel map has case-insensitively distinct
member display names. -/
abbrev ChannelsOk (chs : List (Str × ChannelData)) : Prop :=
  ∀ p ∈ chs, p.2.users.Pairwise nameDistinct

/-- The registry invariant of claim C1: within each channel, display names
are unique case-insensitively among current members. -/
abbrev NamesOk (st : ServerState) : Prop := ChannelsOk st.channels

theorem pairwise_aset {K V : Type} [DecidableEq K] {R : K × V → K × V → Prop}
    {l : List (K × V)} {k : K} {v : V}
    (hpw : l.Pairwise R) (hnew : ∀ e ∈ l, R e (k, v) ∧ R (k, v) e) :
    (aset l k v).Pairwise R := by
  induction l with
  | nil => simp [aset]
  | cons e rest ih =>
    rcases List.pairwise_cons.mp hpw with ⟨he, hrest⟩
    by_cases hk : e.1 = k
    · simp only [aset, hk, if_pos]
      refine List.pairwise_cons.mpr ⟨?_, hrest⟩
      intro x hx
      exact (hnew x (List.mem_cons_of_mem _ hx)).2
    · simp only [aset, hk, if_neg, not_false_iff]
      refine List.pairwise_cons.mpr
        ⟨?_, ih hrest (fun x hx => hnew x (List.mem_cons_of_mem _ hx))⟩
      intro x hx
      rcases mem_aset hx with rfl | hx'
      · exact (hnew e (List.mem_cons_self _ _)).1
      · exact he x hx'

theorem channelsOk_aset {chs : List (Str × ChannelData)} {chan : Str} {cd : ChannelData}
    (h : ChannelsOk chs) (hcd : cd.users.Pairwise nameDistinct) :
    ChannelsOk (aset chs chan cd) := by
  intro p hp
  rcases mem_aset hp with rfl | hp'
  · exact hcd
  · exact h p hp'

theorem channelsOk_adel {chs : List (Str × ChannelData)} {chan : Str}
    (h : ChannelsOk chs) : ChannelsOk (adel chs chan) :=
  fun p hp => h p (mem_adel hp)

theorem namesOk_leave (st : ServerState) (sid : Nat) (chan : Str) (now : Nat)
    (h : NamesOk st) : NamesOk (leaveChannel st sid chan now).1 := by
  unfold leaveChannel
  cases hu : aget st.users sid with
  | none => exact h
  | some user =>
    cases hc : aget st.channels chan with
    | none => exact h
    | some cd =>
      have hcd : cd.users.Pairwise nameDistinct := h (chan, cd) (aget_mem hc)
      have hdel : (adel cd.users sid).Pairwise nameDistinct :=
        List.Pairwise.sublist (adel_sublist _ _) hcd
      by_cases hlen : (adel cd.users sid).length > 0
      · simp only [hlen, if_pos]
        exact channelsOk_aset h hdel
      · simp only [hlen, if_neg, not_false_iff]
        exact channelsOk_aset h hdel

theorem namesOk_joinInsert (st2 : ServerState) (sid : Nat) (vu vc : Str)
    (cd : ChannelData) (now : Nat) (evs1 : List OutAction)
    (h : NamesOk st2) (hcd : cd.users.Pairwise nameDistinct)
    (hfind : cd.users.find? (fun e => jsLower e.2.username == jsLower vu) = none) :
    NamesOk (joinInsert st2 sid vu vc cd now evs1).1 := by
  unfold joinInsert
  refine channelsOk_aset h (pairwise_aset hcd ?_)
  intro e he
  have hne : ¬(jsLower e.2.username == jsLower vu) = true :=
    List.find?_eq_none.mp hfind e he
  rw [beq_iff_eq] at hne
  exact ⟨hne, fun hx => hne hx.symm⟩

theorem namesOk_joinAfterLeave (st1 : ServerState) (sid : Nat) (vu vc : Str)
    (now : Nat) (evs1 : List OutAction) (h : NamesOk st1) :
    NamesOk (joinAfterLeave st1 sid vu vc now evs1).1 := by
  unfold joinAfterLeave
  dsimp only
  have hok1 : ChannelsOk (if (aget st1.channels vc).isSome then st1.channels
      else aset st1.channels vc (freshChannel now)) := by
    split
    · exact h
    · exact channelsOk_aset h (by simp [freshChannel])
  have hcdok : ((aget (if (aget st1.channels vc).isSome then st1.channels
      else aset st1.channels vc (freshChannel now)) vc).getD (freshChannel now)).users.Pairwise
        nameDistinct := by
    cases hg : aget (if (aget st1.channels vc).isSome then st1.channels
        else aset st1.channels vc (freshChannel now)) vc with
    | none => simp [freshChannel]
    | some cd0 =>
      simp only [hg, Option.getD_some]
      exact hok1 (vc, cd0) (aget_mem hg)
  cases hfind : ((aget (if (aget st1.channels vc).isSome then st1.channels
      else aset st1.channels vc (freshChannel now)) vc).getD (freshChannel now)).users.find?
        (fun e => jsLower e.2.username == jsLower vu) with
  | some x =>
    simp only [hfind]
    exact hok1
  | none =>
    simp only [hfind]
    exact namesOk_joinInsert _ _ _ _ _ _ _ hok1 hcdok hfind

theorem namesOk_join (st : ServerState) (sid : Nat) (u c : JSVal) (now : Nat)
    (h : NamesOk st) : NamesOk (joinStep st sid u c now).1 := by
  unfold joinStep
  dsimp only
  split
  · exact h
  split
  · exact h
  unfold joinValidated
  dsimp only
  cases hp : aget st.users sid with
  | none =>
    simp only [hp]
    exact namesOk_joinAfterLeave _ _ _ _ _ _ h
  | some prevUser =>
    simp only [hp]
    exact namesOk_joinAfterLeave _ _ _ _ _ _ (namesOk_leave st sid prevUser.channel now h)

theorem namesOk_send (catalog : List Str) (st : ServerState) (sid : Nat)
    (message replyTo : JSVal) (now : Nat) (h : NamesOk st) :
    NamesOk (sendMessageStep catalog st sid message replyTo now).1 := by
  unfold sendMessageStep
  cases hu : aget st.users sid with
  | none =>
    simp only [hu]
    exact h
  | some user =>
    simp only [hu]
    cases hm : validateMessage message with
    | none =>
      simp only [hm]
      exact h
    | some vm =>
      simp only [hm]
      split
      · exact h
      · exact h

theorem namesOk_typing (st : ServerState) (sid : Nat) (isTyping : JSVal) (now : Nat)
    (h : NamesOk st) : NamesOk (typingStep st sid isTyping now).1 := by
  unfold typingStep
  cases hu : aget st.users sid with
  | none =>
    simp only [hu]
    exact h
  | some user =>
    simp only [hu]
    cases hc : aget st.channels user.channel with
    | none =>
      simp only [hc]
      exact h
    | some cd =>
      simp only [hc]
      split
      · exact channelsOk_aset h (h (user.channel, cd) (aget_mem hc))
      · exact h

theorem namesOk_timer (st : ServerState) (chan : Str) (now : Nat)
    (h : NamesOk st) : NamesOk (timerFireStep st chan now) := by
  unfold timerFireStep
  dsimp only
  cases hc : aget st.channels chan with
  | none =>
    simp only [hc]
    exact h
  | some cd =>
    simp only [hc]
    by_cases hz : cd.users.length = 0
    · simp only [hz, if_pos]
      exact channelsOk_adel h
    · simp only [hz, if_neg, not_false_iff]
      exact h

theorem namesOk_disconnect (st : ServerState) (sid : Nat) (now : Nat)
    (h : NamesOk st) : NamesOk (disconnectStep st sid now).1 := by
  unfold disconnectStep
  cases hu : aget st.users sid with
  | none => exact h
  | some user => exact namesOk_leave st sid user.channel now h

theorem namesOk_step (catalog : List Str) (st : ServerState) (ev : InEvent)
    (h : NamesOk st) : NamesOk (step catalog st ev).1 := by
  cases ev with
  | join sid u c now => exact namesOk_join st sid u c now h
  | sendMessage sid m r now => exact namesOk_send catalog st sid m r now h
  | typing sid t now => exact namesOk_typing st sid t now h
  | disconnect sid now => exact namesOk_disconnect st sid now h
  | timerFire chan now => exact namesOk_timer st chan now h

theorem namesOk_foldl (catalog : List Str) (evs : List InEvent) :
    ∀ st : ServerState, NamesOk st →
      NamesOk (evs.foldl (fun st ev => (step catalog st ev).1) st) := by
  induction evs with
  | nil => exact fun st h => h
  | cons ev rest ih =>
    intro st h
    exact ih _ (namesOk_step catalog st ev h)

/-- Claim C1: after any sequence of events from process start, display
names within each channel are unique case-insensitively among current
members; and a join by a fresh connection into an existing channel whose
member list already holds the name up to case fails with the `NameTaken`
error as a single unicast with no state change. -/
theorem name_uniqueness :
    (∀ (catalog : List Str) (evs : List InEvent), NamesOk (runEvents catalog evs)) ∧
    (∀ (st : ServerState) (sid : Nat) (u c : JSVal) (now : Nat) (vu vc : Str)
       (cd : ChannelData),
      aget st.users sid = none →
      validateUsername u = some vu → vu ≠ [] →
      validateChannelName c = some vc → vc ≠ [] →
      aget st.channels vc = some cd →
      (∃ e ∈ cd.users, jsLower e.2.username = jsLower vu) →
      joinStep st sid u c now = (st, [.uni sid (.errorEv errNameTaken)])) := by
  constructor
  · intro catalog evs
    exact namesOk_foldl catalog evs initialState (by intro p hp; simp [initialState] at hp)
  · intro st sid u c now vu vc cd hprev hu hvu hc hvc hch hexists
    have hfind : ∃ x, cd.users.find? (fun e => jsLower e.2.username == jsLower vu)
        = some x := by
      rcases hexists with ⟨e, he, heq⟩
      exact Option.isSome_iff_exists.mp (List.find?_isSome.mpr ⟨e, he, by simp [heq]⟩)
    obtain ⟨x, hfind⟩ := hfind
    have hex : (aget st.channels vc).isSome := by simp [hch]
    simp [joinStep, hu, hc, strFalsy_some_of_ne hvu, strFalsy_some_of_ne hvc,
      joinValidated, hprev, joinAfterLeave, hex, hch, hfind]

/-- Witness for C1: the invariant holds after Ann's join from the empty
start state, and a second fresh connection joining "general" as "ann"
(differing from "Ann" only by case) is rejected with the name-taken error
at an unchanged state. -/
theorem name_uniqueness_witness :
    NamesOk (runEvents [] [.join 1 (.vstr annStr) (.vstr generalStr) 0]) ∧
    joinStep stAnn 2 (.vstr "ann".toList) (.vstr generalStr) 9
      = (stAnn, [.uni 2 (.errorEv errNameTaken)]) :=
  ⟨name_uniqueness.1 [] [.join 1 (.vstr annStr) (.vstr generalStr) 0],
   name_uniqueness.2 stAnn 2 (.vstr "ann".toList) (.vstr generalStr) 9 "ann".toList
     generalStr
     ⟨[(1, ⟨annStr, annColor, 0⟩)], [(annStr, ⟨1000, annColor⟩)], 0⟩
     (by decide) (by decide) (by decide) (by decide) (by decide) (by decide) (by decide)⟩

/-- The Ann state with one stored message in "general"'s history. -/
def stAnnH : ServerState := { stAnn with messageHistory := [(generalStr, [mdW 0])] }

/-- Witness for C9: Bob joins "general" on a state with a non-empty
history; he alone receives the one `message-history` event. -/
theorem join_history_replay_witness :
    (historyDeliveredTo (joinStep stAnnH 2 (.vstr bobStr) (.vstr generalStr) 9).1 2
        (joinStep stAnnH 2 (.vstr bobStr) (.vstr generalStr) 9).2
      = (if (getMessageHistory stAnnH.messageHistory generalStr 50).length > 0
          then [getMessageHistory stAnnH.messageHistory generalStr 50] else [])) ∧
    historyDeliveredTo (joinStep stAnnH 2 (.vstr bobStr) (.vstr generalStr) 9).1 1
      (joinStep stAnnH 2 (.vstr bobStr) (.vstr generalStr) 9).2 = [] :=
  ⟨(join_history_replay.1 stAnnH 2 (.vstr bobStr) (.vstr generalStr) 9 bobStr generalStr
      (by decide) (by decide) (by decide) (by decide) (by decide) (by decide)).1,
   join_history_replay.2 stAnnH 2 (.vstr bobStr) (.vstr generalStr) 9 1 (by decide)⟩

end Chat
